import Mathlib

/-!
Verification of the `newmonkey` Discord-cache extractor
(`src/newmonkey/parsing.py`) against its natural-language specification.

Byte strings are modelled as `List Nat` (each element a byte value).
Python `str` values are modelled by their UTF-8 byte sequences, which is
faithful for every operation the program performs on them: splitting on
the ASCII byte `/`, the substring test `"discord" in domain`, equality
with the ASCII literal `"api"`, and emptiness.  The external content-type
sniffer `magic.from_buffer` is a black-box parameter `List Nat → List Nat`.
-/

/-- `END_SUFFIX` from parsing.py: the 11-byte end-of-payload marker. -/
def endSuffix : List Nat := [0x41, 0x0D, 0x97, 0x45, 0x6F, 0xFA, 0xF4, 0x01, 0x00, 0x00, 0x00]

/-- `START_SUFFIX` from parsing.py: the 8-byte start-of-file marker. -/
def startSuffix : List Nat := [0x30, 0x5C, 0x72, 0xA7, 0x1B, 0x6D, 0xFB, 0xFC]

/-- Python slice `l[a:b]` (for `0 ≤ a ≤ b`, with out-of-range clamping). -/
def pySlice (l : List Nat) (a b : Nat) : List Nat := (l.drop a).take (b - a)

/-- Python `int.from_bytes(l, byteorder="little")`. -/
def leNat (l : List Nat) : Nat := l.foldr (fun b acc => b + 256 * acc) 0

/-- A UTF-8 continuation byte (`0x80`–`0xBF`). -/
def isCont (b : Nat) : Bool := 0x80 ≤ b && b ≤ 0xBF

/-- Strict UTF-8 validity of a byte sequence, as checked by Python's
`bytes.decode()` (rejecting surrogates, overlong forms and values above
`U+10FFFF`).  `bytes.decode` succeeds exactly on valid sequences. -/
def validUTF8 : List Nat → Bool
  | [] => true
  | b :: l =>
    if b ≤ 0x7F then validUTF8 l
    else if 0xC2 ≤ b && b ≤ 0xDF then
      match l with
      | c1 :: l2 => isCont c1 && validUTF8 l2
      | [] => false
    else if b = 0xE0 then
      match l with
      | c1 :: c2 :: l2 => (0xA0 ≤ c1 && c1 ≤ 0xBF) && isCont c2 && validUTF8 l2
      | _ => false
    else if (0xE1 ≤ b && b ≤ 0xEC) || b = 0xEE || b = 0xEF then
      match l with
      | c1 :: c2 :: l2 => isCont c1 && isCont c2 && validUTF8 l2
      | _ => false
    else if b = 0xED then
      match l with
      | c1 :: c2 :: l2 => (0x80 ≤ c1 && c1 ≤ 0x9F) && isCont c2 && validUTF8 l2
      | _ => false
    else if b = 0xF0 then
      match l with
      | c1 :: c2 :: c3 :: l2 => (0x90 ≤ c1 && c1 ≤ 0xBF) && isCont c2 && isCont c3 && validUTF8 l2
      | _ => false
    else if 0xF1 ≤ b && b ≤ 0xF3 then
      match l with
      | c1 :: c2 :: c3 :: l2 => isCont c1 && isCont c2 && isCont c3 && validUTF8 l2
      | _ => false
    else if b = 0xF4 then
      match l with
      | c1 :: c2 :: c3 :: l2 => (0x80 ≤ c1 && c1 ≤ 0x8F) && isCont c2 && isCont c3 && validUTF8 l2
      | _ => false
    else false

/-- Helper for Python `str.split("/", maxsplit=m)` on UTF-8 bytes:
`acc` is the current (reversed-free) part being accumulated, `m` the number
of splits still allowed.  `47` is the byte of the ASCII slash. -/
def splitSlashAux : Nat → List Nat → List Nat → List (List Nat)
  | _, [], acc => [acc]
  | m, b :: rest, acc =>
    if b = 47 then
      match m with
      | 0 => [acc ++ b :: rest]
      | m1 + 1 => acc :: splitSlashAux m1 rest []
    else splitSlashAux m rest (acc ++ [b])

/-- Helper for Python `str.split("/")` (unlimited splits) on UTF-8 bytes. -/
def splitAllAux : List Nat → List Nat → List (List Nat)
  | [], acc => [acc]
  | b :: rest, acc =>
    if b = 47 then acc :: splitAllAux rest []
    else splitAllAux rest (acc ++ [b])

/-- The `i`-th `/`-delimited segment of a URL (0-based), `[]` if absent. -/
def urlSegment (url : List Nat) (i : Nat) : List Nat := (splitAllAux url []).getD i []

/-- Python `p in s` on strings (substring test), on UTF-8 bytes. -/
def hasSub (p : List Nat) : List Nat → Bool
  | [] => decide (p = [])
  | b :: l => decide ((b :: l).take p.length = p) || hasSub p l

/-- The byte-collection loop of `parse_cache_file` (lines 80–93), acting on
the suffix `cache_file_data[index:]` of the buffer: while
`index + len(END_SUFFIX) < len(cache_file_data)` and the end suffix has not
been found, compare the window starting at `index` with `END_SUFFIX`, and
append the current byte when it does not match.  Returns `none` when the
loop exhausts the buffer without a match (strict `<`, exactly as in the
source), `some payload` otherwise. -/
def collectPayload : List Nat → Option (List Nat)
  | [] => none
  | b :: rest =>
    if endSuffix.length < (b :: rest).length then
      if (b :: rest).take endSuffix.length = endSuffix then some []
      else
        match collectPayload rest with
        | none => none
        | some acc => some (b :: acc)
    else none

/-- The exceptions `parse_cache_file` can raise.  The first three are the
`InvalidCacheFileFormat` cases; `unicodeDecodeError` is Python's
`UnicodeDecodeError` from `bytes.decode()` on invalid UTF-8, and
`valueError` is the `ValueError` raised by tuple unpacking (URL split into
fewer than four parts, or a mime type without exactly one slash). -/
inductive ParseError where
  | invalidStart
  | invalidNoUrl
  | invalidNoEnd
  | unicodeDecodeError
  | valueError
deriving DecidableEq

/-- Whether an exception is an `InvalidCacheFileFormat` (the only class
caught by `create_file_from_cache_file`). -/
def isInvalidCacheFileFormat : ParseError → Bool
  | .invalidStart => true
  | .invalidNoUrl => true
  | .invalidNoEnd => true
  | .unicodeDecodeError => false
  | .valueError => false

/-- The successful result of `parse_cache_file` (minus the mime type, which
is the external sniffer applied to `payload` and is reattached by
`create_file_from_cache_file`). -/
structure DecodedRecord where
  payload : List Nat
  domain : List Nat
  datakind : Option (List Nat)
deriving DecidableEq

/-- `int.from_bytes(cache_file_data[12:16], "little")` (line 68). -/
def urlLengthOf (d : List Nat) : Nat := leNat (pySlice d 12 16)

/-- `data_start = 24 + offset` (line 69). -/
def dataStartOf (d : List Nat) : Nat := 24 + urlLengthOf d

/-- `cache_file_data[28:data_start]` (line 72), the origin-URL bytes. -/
def urlOf (d : List Nat) : List Nat := pySlice d 28 (dataStartOf d)

/-- `origin_url.split("/", maxsplit=4)` (line 75). -/
def urlPartsOf (d : List Nat) : List (List Nat) := splitSlashAux 4 (urlOf d) []

/-- UTF-8 bytes of `"discord"`. -/
def discordBytes : List Nat := [100, 105, 115, 99, 111, 114, 100]

/-- UTF-8 bytes of `"api"`. -/
def apiBytes : List Nat := [97, 112, 105]

/-- `parse_cache_file` (parsing.py lines 32–99), one step at a time:
check the start marker, read the little-endian length at 12–15, extract
and decode the URL at `[28, 24+offset)`, reject an empty URL, unpack
`origin_url.split("/", maxsplit=4)` into at least four names, null the
data kind when the domain lacks `"discord"` or the kind is `"api"`, then
collect payload bytes until the end suffix. -/
def parse_cache_file (data : List Nat) : Except ParseError DecodedRecord :=
  if data.take startSuffix.length ≠ startSuffix then
    .error .invalidStart
  else if ¬ validUTF8 (urlOf data) then
    .error .unicodeDecodeError
  else if urlOf data = [] then
    .error .invalidNoUrl
  else if (urlPartsOf data).length < 4 then
    .error .valueError
  else
    match collectPayload (data.drop (dataStartOf data)) with
    | none => .error .invalidNoEnd
    | some payload =>
      .ok ⟨payload, (urlPartsOf data).getD 2 [],
        if ¬ hasSub discordBytes ((urlPartsOf data).getD 2 []) ∨ (urlPartsOf data).getD 3 [] = apiBytes
        then none
        else some ((urlPartsOf data).getD 3 [])⟩

/-- UTF-8 bytes of `"image"`. -/
def imageBytes : List Nat := [105, 109, 97, 103, 101]

/-- UTF-8 bytes of `"other"`. -/
def otherBytes : List Nat := [111, 116, 104, 101, 114]

/-- The byte of the ASCII dot. -/
def dotByte : Nat := 46

/-- One filesystem write performed by `create_file_from_cache_file`
(lines 136–140): the destination directory as path components appended to
the output root, the file name, and the written bytes. -/
structure WriteOp where
  dir : List (List Nat)
  filename : List Nat
  content : List Nat
deriving DecidableEq

/-- `create_file_from_cache_file` (parsing.py lines 117–142).  `sniff` is
the black-box `magic.from_buffer(·, mime=True)`; `file_name` is
`cache_filepath.name`, `data` the bytes read from the file.  Returns the
`(domain, mime_type)` pair handed back to the aggregator together with the
write performed, or re-raises any exception that is not an
`InvalidCacheFileFormat` (only that class is caught, lines 122–125; the
`category, extension = mime_type.split("/")` unpacking itself raises
`ValueError` unless the mime string holds exactly one slash). -/
def create_file_from_cache_file (sniff : List Nat → List Nat) (all_files : Bool)
    (root : List (List Nat)) (file_name : List Nat) (data : List Nat) :
    Except ParseError ((Option (List Nat) × Option (List Nat)) × Option WriteOp) :=
  match parse_cache_file data with
  | .error e => if isInvalidCacheFileFormat e then .ok ((none, none), none) else .error e
  | .ok r =>
    let mime := sniff r.payload
    let mimeParts := splitAllAux mime []
    if mimeParts.length ≠ 2 then .error .valueError
    else
      let category := mimeParts.getD 0 []
      let extension := mimeParts.getD 1 []
      if category ≠ imageBytes ∧ all_files = false then .ok ((none, none), none)
      else
        let dir := match r.datakind with
          | none => root ++ [category, otherBytes, r.domain]
          | some k => root ++ [category, k]
        .ok ((some r.domain, some mime), some ⟨dir, file_name ++ dotByte :: extension, r.payload⟩)

/-- `dict_increment` (parsing.py lines 145–148) on an insertion-ordered
association list, the model of a Python `dict`: a missing key is first
appended with value `0`, then the key's entry is incremented. -/
def dict_increment (d : List (Option (List Nat) × Nat)) (key : Option (List Nat)) :
    List (Option (List Nat) × Nat) :=
  if d.any (fun p => decide (p.1 = key)) then
    d.map (fun p => if p.1 = key then (p.1, p.2 + 1) else p)
  else d ++ [(key, 1)]

/-- Lookup in the association-list model of a Python `dict`, with `0` for
an absent key (the count a key has before it is ever incremented). -/
def dlookup (d : List (Option (List Nat) × Nat)) (key : Option (List Nat)) : Nat :=
  match d.find? (fun p => decide (p.1 = key)) with
  | some p => p.2
  | none => 0

/-- The run-wide statistics of `process_all_files`: the `types` and
`domains` dictionaries and `sorted_count` (lines 168–170). -/
structure RunStats where
  types : List (Option (List Nat) × Nat)
  domains : List (Option (List Nat) × Nat)
  sorted_count : Nat
deriving DecidableEq

/-- The aggregation step of the result-consumption loop (lines 182–189):
`sorted_count += mime_type is not None`, then `dict_increment(types,
mime_type)` and `dict_increment(domains, domain)`. -/
def agg_step (st : RunStats) (res : Option (List Nat) × Option (List Nat)) : RunStats :=
  ⟨dict_increment st.types res.2, dict_increment st.domains res.1,
    st.sorted_count + (if res.2.isSome then 1 else 0)⟩

/-- The empty statistics the loop starts from. -/
def initStats : RunStats := ⟨[], [], 0⟩

/-- `process_all_files` (parsing.py lines 151–208) restricted to its core:
each `(file_name, bytes)` input goes through `create_file_from_cache_file`
and the outcome is folded into the statistics with `agg_step`.  The pool
consumes results in nondeterministic order (`imap_unordered`); the model
fixes list order, and order-independence of the statistics is proved
separately.  An exception escaping a worker re-raises in the consuming
loop, aborting the run — modelled by the `Except` monad.  Returns the
final statistics and the writes performed. -/
def process_all_files (sniff : List Nat → List Nat) (all_files : Bool)
    (root : List (List Nat)) (files : List (List Nat × List Nat)) :
    Except ParseError (RunStats × List WriteOp) :=
  files.foldlM
    (fun acc file => do
      let res ← create_file_from_cache_file sniff all_files root file.1 file.2
      pure (agg_step acc.1 res.1, acc.2 ++ res.2.toList))
    (initStats, [])

/-- The synthetic buffer of spec §8 / claim C1, modelled from the spec's
words: start marker, zero padding to offset 12, the little-endian 32-bit
`urlLength` field describing the span `[28, 24+urlLength)` the decoder
assigns to the URL (so the field is `urlBytes.length + 4`), reserved
padding to offset 28, then `urlBytes`, `payloadBytes`, the end marker and
any trailing bytes (the spec's construction has none). -/
def buildRecord (urlB payloadB trailing : List Nat) : List Nat :=
  startSuffix ++ List.replicate 4 0 ++
    [(urlB.length + 4) % 256, (urlB.length + 4) / 256 % 256,
     (urlB.length + 4) / 65536 % 256, (urlB.length + 4) / 16777216 % 256] ++
    List.replicate 12 0 ++ urlB ++ payloadB ++ endSuffix ++ trailing

deriving instance DecidableEq for Except

/-- UTF-8 bytes of the URL `"https://u.example.com/x"`. -/
def urlA : List Nat :=
  [104, 116, 116, 112, 115, 58, 47, 47, 117, 46, 101, 120, 97, 109, 112, 108, 101, 46, 99, 111,
   109, 47, 120]

/-- UTF-8 bytes of the URL `"https://h.example.com/y"`. -/
def urlBs : List Nat :=
  [104, 116, 116, 112, 115, 58, 47, 47, 104, 46, 101, 120, 97, 109, 112, 108, 101, 46, 99, 111,
   109, 47, 121]

/-- UTF-8 bytes of the URL `"https://cdn.discord.com/attachments/rest"`. -/
def urlD : List Nat :=
  [104, 116, 116, 112, 115, 58, 47, 47, 99, 100, 110, 46, 100, 105, 115, 99, 111, 114, 100, 46,
   99, 111, 109, 47, 97, 116, 116, 97, 99, 104, 109, 101, 110, 116, 115, 47, 114, 101, 115, 116]

/-- UTF-8 bytes of `"u.example.com"`. -/
def domA : List Nat := [117, 46, 101, 120, 97, 109, 112, 108, 101, 46, 99, 111, 109]

/-- UTF-8 bytes of `"cdn.discord.com"`. -/
def domD : List Nat := [99, 100, 110, 46, 100, 105, 115, 99, 111, 114, 100, 46, 99, 111, 109]

/-- UTF-8 bytes of `"attachments"`. -/
def attachBytes : List Nat := [97, 116, 116, 97, 99, 104, 109, 101, 110, 116, 115]

/-- UTF-8 bytes of `"image/png"`. -/
def pngMime : List Nat := [105, 109, 97, 103, 101, 47, 112, 110, 103]

/-- UTF-8 bytes of `"text/html"`. -/
def htmlMime : List Nat := [116, 101, 120, 116, 47, 104, 116, 109, 108]

/-- Payload of the first scenario record. -/
def payloadA : List Nat := [1, 2, 3]

/-- Payload of the second scenario record. -/
def payloadB : List Nat := [9, 9]

/-- First scenario file: a well-formed record, one trailing metadata byte. -/
def dataA : List Nat := buildRecord urlA payloadA [0]

/-- Second scenario file: a well-formed record, one trailing metadata byte. -/
def dataB : List Nat := buildRecord urlBs payloadB [0]

/-- Third scenario file: a corrupted start marker. -/
def dataBad : List Nat := [0, 1, 2]

/-- A content sniffer for the scenario: the first record's payload is
recognised as `image/png`, anything else as `text/html`. -/
def sniffC3 : List Nat → List Nat := fun p => if p = payloadA then pngMime else htmlMime

/-- The three-file scenario directory of spec §8. -/
def filesC3 : List (List Nat × List Nat) :=
  [([102, 49], dataA), ([102, 50], dataB), ([102, 51], dataBad)]

/-- A 16-byte buffer: the start marker followed by eight zero bytes, so the
URL-length field reads 0. -/
def dataC10 : List Nat := startSuffix ++ [0, 0, 0, 0, 0, 0, 0, 0]

/-- A well-formed record with a Discord attachment URL. -/
def dataD : List Nat := buildRecord urlD [7] [0]

/-- The decode of `dataD`. -/
def recD : DecodedRecord := ⟨[7], domD, some attachBytes⟩

/-- A record whose payload region contains the end marker twice: the scan
must stop at the first occurrence. -/
def dataC7 : List Nat := buildRecord urlA ([7] ++ endSuffix ++ [8]) [0]

/-- The decode of `dataC7`: the payload is truncated at the first marker. -/
def recC7 : DecodedRecord := ⟨[7], domA, none⟩

/-- A record with all reserved header bytes zero (as `buildRecord` emits). -/
def dataC9a : List Nat := buildRecord urlA [5] [0]

/-- The same record with every reserved header byte (offsets 8-11 and
16-27) replaced by 9. -/
def dataC9b : List Nat :=
  startSuffix ++ [9, 9, 9, 9] ++ [27, 0, 0, 0] ++ List.replicate 12 9 ++
    urlA ++ [5] ++ endSuffix ++ [0]

/-- UTF-8 bytes of `"ab/cd"`: a non-empty URL with only two slash-parts. -/
def urlShort : List Nat := [97, 98, 47, 99, 100]

/-- A record built around `"ab/cd"`: start marker intact, URL non-empty,
end marker present (with a trailing byte). -/
def dataC2 : List Nat := buildRecord urlShort [1] [0]

/-- UTF-8 bytes of `"abc"`: a non-empty URL with a single slash-part. -/
def urlNoSlash : List Nat := [97, 98, 99]

/-- A record whose URL has no slashes at all. -/
def dataC4 : List Nat := buildRecord urlNoSlash [1] [0]

/-- A content sniffer that always answers `image/png`. -/
def sniffPng : List Nat → List Nat := fun _ => pngMime

/-- UTF-8 bytes of `"png"`. -/
def extPng : List Nat := [112, 110, 103]

/-- The decode of `dataA`. -/
def recA : DecodedRecord := ⟨payloadA, domA, none⟩

/-- Two lists that agree pointwise below `n` have equal `take n`. -/
theorem take_eq_of_agree {l1 l2 : List Nat} {n : Nat}
    (h : ∀ i, i < n → l1.get? i = l2.get? i) : l1.take n = l2.take n := by
  apply List.ext_get?_iff.mpr
  intro m
  by_cases hm : m < n
  · rw [List.get?_take hm, List.get?_take hm, h m hm]
  · rw [List.get?_take_eq_none (by omega), List.get?_take_eq_none (by omega)]

/-- Two lists that agree pointwise from `s` on have equal `drop s`. -/
theorem drop_eq_of_agree {l1 l2 : List Nat} {s : Nat}
    (h : ∀ i, s ≤ i → l1.get? i = l2.get? i) : l1.drop s = l2.drop s := by
  apply List.ext_get?_iff.mpr
  intro m
  rw [List.get?_drop, List.get?_drop]
  exact h (s + m) (by omega)

/-- Two lists that agree pointwise on `[a, b)` have equal slices `[a:b]`. -/
theorem pySlice_eq_of_agree {l1 l2 : List Nat} {a b : Nat}
    (h : ∀ i, a ≤ i → i < b → l1.get? i = l2.get? i) : pySlice l1 a b = pySlice l2 a b := by
  unfold pySlice
  apply take_eq_of_agree
  intro i hi
  rw [List.get?_drop, List.get?_drop]
  exact h (a + i) (by omega) (by omega)

/-- Reading back the four little-endian bytes of a 32-bit value. -/
theorem leNat_le32 {n : Nat} (h : n < 4294967296) :
    leNat [n % 256, n / 256 % 256, n / 65536 % 256, n / 16777216 % 256] = n := by
  simp only [leNat, List.foldr]
  omega

/-- `buildRecord` regrouped as 28 header bytes followed by the body. -/
theorem buildRecord_assoc (u p t : List Nat) :
    buildRecord u p t =
      (startSuffix ++ List.replicate 4 0 ++
        [(u.length + 4) % 256, (u.length + 4) / 256 % 256,
         (u.length + 4) / 65536 % 256, (u.length + 4) / 16777216 % 256] ++
        List.replicate 12 0) ++ (u ++ (p ++ (endSuffix ++ t))) := by
  simp [buildRecord, List.append_assoc]

/-- A synthetic record starts with the start marker. -/
theorem buildRecord_take8 (u p t : List Nat) :
    (buildRecord u p t).take startSuffix.length = startSuffix := by
  rw [buildRecord]
  rw [List.append_assoc, List.append_assoc, List.append_assoc, List.append_assoc,
    List.append_assoc, List.append_assoc]
  exact List.take_left _ _

/-- The bytes of a synthetic record from offset 12 on. -/
theorem buildRecord_drop12 (u p t : List Nat) :
    (buildRecord u p t).drop 12 =
      [(u.length + 4) % 256, (u.length + 4) / 256 % 256,
       (u.length + 4) / 65536 % 256, (u.length + 4) / 16777216 % 256] ++
      (List.replicate 12 0 ++ (u ++ (p ++ (endSuffix ++ t)))) := by
  rw [show buildRecord u p t =
      (startSuffix ++ List.replicate 4 0) ++
        ([(u.length + 4) % 256, (u.length + 4) / 256 % 256,
          (u.length + 4) / 65536 % 256, (u.length + 4) / 16777216 % 256] ++
         (List.replicate 12 0 ++ (u ++ (p ++ (endSuffix ++ t))))) from by
    simp [buildRecord, List.append_assoc]]
  apply List.drop_left'
  simp [startSuffix]

/-- The bytes of a synthetic record from offset 28 on. -/
theorem buildRecord_drop28 (u p t : List Nat) :
    (buildRecord u p t).drop 28 = u ++ (p ++ (endSuffix ++ t)) := by
  rw [buildRecord_assoc]
  apply List.drop_left'
  simp [startSuffix]

/-- The URL-length field of a synthetic record reads back. -/
theorem buildRecord_urlLength (u p t : List Nat) (h : u.length + 4 < 4294967296) :
    urlLengthOf (buildRecord u p t) = u.length + 4 := by
  unfold urlLengthOf pySlice
  rw [buildRecord_drop12]
  rw [show (16 : Nat) - 12 = 4 from rfl]
  rw [List.take_left' (by simp)]
  exact leNat_le32 h

/-- The URL slice of a synthetic record is exactly `urlBytes`. -/
theorem buildRecord_url (u p t : List Nat) (h : u.length + 4 < 4294967296) :
    urlOf (buildRecord u p t) = u := by
  unfold urlOf dataStartOf pySlice
  rw [buildRecord_urlLength u p t h, buildRecord_drop28]
  rw [show 24 + (u.length + 4) - 28 = u.length from by omega]
  exact List.take_left _ _

/-- The scan region of a synthetic record is the body after the URL. -/
theorem buildRecord_dropDataStart (u p t : List Nat) (h : u.length + 4 < 4294967296) :
    (buildRecord u p t).drop (dataStartOf (buildRecord u p t)) = p ++ (endSuffix ++ t) := by
  unfold dataStartOf
  rw [buildRecord_urlLength u p t h]
  rw [show 24 + (u.length + 4) = 28 + u.length from by omega]
  rw [← List.drop_drop, buildRecord_drop28]
  exact List.drop_left _ _

/-- The scan succeeds immediately when the window at the head matches and a
byte remains beyond it. -/
theorem collectPayload_found (l : List Nat) (hlen : endSuffix.length < l.length)
    (hwin : l.take endSuffix.length = endSuffix) : collectPayload l = some [] := by
  cases l with
  | nil => simp at hlen
  | cons b rest =>
    simp only [collectPayload]
    rw [if_pos hlen, if_pos hwin]

/-- One scan step when the window at the head does not match. -/
theorem collectPayload_step (b : Nat) (rest : List Nat)
    (hlen : endSuffix.length < (b :: rest).length)
    (hwin : (b :: rest).take endSuffix.length ≠ endSuffix) :
    collectPayload (b :: rest) = (collectPayload rest).map (fun acc => b :: acc) := by
  simp only [collectPayload]
  rw [if_pos hlen, if_neg hwin]
  cases collectPayload rest <;> rfl

/-- The scan fails when fewer than `len(END_SUFFIX) + 1` bytes remain. -/
theorem collectPayload_short (l : List Nat) (hlen : ¬ endSuffix.length < l.length) :
    collectPayload l = none := by
  cases l with
  | nil => rfl
  | cons b rest =>
    simp only [collectPayload]
    rw [if_neg hlen]

/-- On a region built as `payload ++ endSuffix ++ trailing` with non-empty
trailing bytes and no marker window inside the payload, the scan returns
exactly the payload. -/
theorem collectPayload_clean (p t : List Nat) (ht : t ≠ [])
    (hp : ∀ j, j < p.length → ((p ++ endSuffix).drop j).take endSuffix.length ≠ endSuffix) :
    collectPayload (p ++ (endSuffix ++ t)) = some p := by
  induction p with
  | nil =>
    rw [List.nil_append]
    apply collectPayload_found
    · have h0 : 0 < t.length := List.length_pos.mpr ht
      simp only [List.length_append]
      omega
    · exact List.take_left _ _
  | cons b p1 ih =>
    rw [List.cons_append]
    rw [collectPayload_step]
    · rw [ih]
      · rfl
      · intro j hj
        have h := hp (j + 1) (by simp only [List.length_cons]; omega)
        rwa [List.cons_append, List.drop_succ_cons] at h
    · simp only [List.length_cons, List.length_append]
      have h0 : 0 < t.length := List.length_pos.mpr ht
      omega
    · have h := hp 0 (by simp only [List.length_cons]; omega)
      rw [List.drop_zero] at h
      have hre : b :: (p1 ++ (endSuffix ++ t)) = ((b :: p1) ++ endSuffix) ++ t := by
        simp [List.append_assoc]
      have hb : endSuffix.length ≤ ((b :: p1) ++ endSuffix).length := by
        simp only [List.length_append, List.length_cons]
        omega
      rw [hre, List.take_append_of_le_length hb]
      exact h

/-- The scan returns `none` exactly when no window of marker length equal to
the end suffix starts at a position leaving at least one byte after the
window (the loop's strict bound). -/
theorem collectPayload_eq_none_iff (l : List Nat) :
    collectPayload l = none ↔
      ∀ j, j + endSuffix.length < l.length → (l.drop j).take endSuffix.length ≠ endSuffix := by
  induction l with
  | nil => simp [collectPayload]
  | cons b rest ih =>
    by_cases hlen : endSuffix.length < (b :: rest).length
    · by_cases hwin : (b :: rest).take endSuffix.length = endSuffix
      · rw [collectPayload_found _ hlen hwin]
        simp only [false_iff, reduceCtorEq]
        intro h
        exact h 0 (by simpa using hlen) (by simpa using hwin)
      · rw [collectPayload_step b rest hlen hwin]
        rw [Option.map_eq_none']
        rw [ih]
        constructor
        · intro h j hj
          cases j with
          | zero => simpa using hwin
          | succ j1 =>
            rw [List.drop_succ_cons]
            exact h j1 (by simp only [List.length_cons] at hj; omega)
        · intro h j hj
          have h2 := h (j + 1) (by simp only [List.length_cons]; omega)
          rwa [List.drop_succ_cons] at h2
    · rw [collectPayload_short _ hlen]
      simp only [true_iff]
      intro j hj
      simp only [List.length_cons] at hj hlen
      omega

/-- `collectPayload_eq_none_iff` restated on the whole buffer, with windows
located by absolute index. -/
theorem collectPayload_drop_eq_none_iff (d : List Nat) (s : Nat) :
    collectPayload (d.drop s) = none ↔
      ∀ i, s ≤ i → i + endSuffix.length < d.length →
        pySlice d i (i + endSuffix.length) ≠ endSuffix := by
  rw [collectPayload_eq_none_iff]
  constructor
  · intro h i hsi hi
    have hj := h (i - s) (by simp only [List.length_drop]; omega)
    rw [List.drop_drop, show s + (i - s) = i from by omega] at hj
    rw [pySlice, show i + endSuffix.length - i = endSuffix.length from by omega]
    exact hj
  · intro h j hj
    simp only [List.length_drop] at hj
    have h2 := h (s + j) (by omega) (by omega)
    rw [pySlice, show s + j + endSuffix.length - (s + j) = endSuffix.length from by omega] at h2
    rwa [List.drop_drop]

/-- When the scan succeeds, the returned payload is the region from the scan
start to the first matching window, that window matches the end suffix, and
no earlier window matches. -/
theorem collectPayload_eq_some_spec (l : List Nat) (p : List Nat)
    (h : collectPayload l = some p) :
    l.take p.length = p ∧ (l.drop p.length).take endSuffix.length = endSuffix ∧
      ∀ j, j < p.length → (l.drop j).take endSuffix.length ≠ endSuffix := by
  induction l generalizing p with
  | nil => simp [collectPayload] at h
  | cons b rest ih =>
    by_cases hlen : endSuffix.length < (b :: rest).length
    · by_cases hwin : (b :: rest).take endSuffix.length = endSuffix
      · rw [collectPayload_found _ hlen hwin] at h
        have hp : p = [] := by simpa using h.symm
        subst hp
        exact ⟨rfl, by simpa using hwin, by intro j hj; simp at hj⟩
      · rw [collectPayload_step b rest hlen hwin] at h
        cases hrest : collectPayload rest with
        | none => rw [hrest] at h; simp at h
        | some acc =>
          rw [hrest] at h
          simp only [Option.map_some', Option.some.injEq] at h
          subst h
          obtain ⟨h1, h2, h3⟩ := ih acc hrest
          refine ⟨?_, ?_, ?_⟩
          · simp only [List.length_cons, List.take_succ_cons, h1]
          · simpa only [List.length_cons, List.drop_succ_cons] using h2
          · intro j hj
            cases j with
            | zero => simpa using hwin
            | succ j1 =>
              rw [List.drop_succ_cons]
              exact h3 j1 (by simp only [List.length_cons] at hj; omega)
    · rw [collectPayload_short _ hlen] at h
      cases h

/-- Parts produced before the split budget runs out coincide with the
unlimited split: `s.split("/", maxsplit=m)[i] = s.split("/")[i]` for
`i < m`. -/
theorem getD_splitSlashAux (l : List Nat) : ∀ (m i : Nat) (acc : List Nat), i < m →
    (splitSlashAux m l acc).getD i [] = (splitAllAux l acc).getD i [] := by
  induction l with
  | nil => intro m i acc h; rfl
  | cons b rest ih =>
    intro m i acc h
    by_cases hb : b = 47
    · subst hb
      simp only [splitSlashAux, splitAllAux, if_pos rfl]
      cases m with
      | zero => omega
      | succ m1 =>
        cases i with
        | zero => rfl
        | succ i1 =>
          simp only [List.getD_cons_succ]
          exact ih m1 i1 [] (by omega)
    · simp only [splitSlashAux, splitAllAux, if_neg hb]
      exact ih m i (acc ++ [b]) h

/-- The bounded split produces `min(parts, m+1)` parts. -/
theorem length_splitSlashAux (l : List Nat) : ∀ (m : Nat) (acc : List Nat),
    (splitSlashAux m l acc).length = min ((splitAllAux l acc).length) (m + 1) := by
  induction l with
  | nil =>
    intro m acc
    show ([acc] : List (List Nat)).length = min (([acc] : List (List Nat)).length) (m + 1)
    simp only [List.length_singleton]
    omega
  | cons b rest ih =>
    intro m acc
    by_cases hb : b = 47
    · subst hb
      simp only [splitSlashAux, splitAllAux, if_pos rfl, if_true, eq_self_iff_true]
      cases m with
      | zero =>
        simp only [List.length_cons, List.length_nil]
        omega
      | succ m1 =>
        simp only [List.length_cons, ih m1 []]
        omega
    · simp only [splitSlashAux, splitAllAux, if_neg hb]
      exact ih m (acc ++ [b])

/-- Introduction of a successful `parse_cache_file` from its checks. -/
theorem parse_ok_intro {d : List Nat} {pl : List Nat}
    (h1 : d.take startSuffix.length = startSuffix) (h2 : validUTF8 (urlOf d) = true)
    (h3 : urlOf d ≠ []) (h4 : 4 ≤ (urlPartsOf d).length)
    (h5 : collectPayload (d.drop (dataStartOf d)) = some pl) :
    parse_cache_file d = .ok ⟨pl, (urlPartsOf d).getD 2 [],
      if ¬ hasSub discordBytes ((urlPartsOf d).getD 2 [])
          ∨ (urlPartsOf d).getD 3 [] = apiBytes
      then none else some ((urlPartsOf d).getD 3 [])⟩ := by
  unfold parse_cache_file
  rw [if_neg (not_not.mpr h1), if_neg (not_not.mpr h2), if_neg (by simpa using h3),
    if_neg (by omega), h5]

/-- Inversion of a successful `parse_cache_file`: every check passed, the
scan succeeded with the returned payload, and domain and data kind are the
second and third parts of the URL split. -/
theorem parse_ok_elim {d : List Nat} {r : DecodedRecord} (h : parse_cache_file d = .ok r) :
    d.take startSuffix.length = startSuffix ∧ validUTF8 (urlOf d) = true ∧ urlOf d ≠ [] ∧
      4 ≤ (urlPartsOf d).length ∧
      collectPayload (d.drop (dataStartOf d)) = some r.payload ∧
      r.domain = (urlPartsOf d).getD 2 [] ∧
      r.datakind = (if ¬ hasSub discordBytes ((urlPartsOf d).getD 2 [])
          ∨ (urlPartsOf d).getD 3 [] = apiBytes
        then none else some ((urlPartsOf d).getD 3 [])) := by
  have h1 : d.take startSuffix.length = startSuffix := by
    by_contra hx
    unfold parse_cache_file at h
    rw [if_pos hx] at h
    exact Except.noConfusion h
  have h2 : validUTF8 (urlOf d) = true := by
    by_contra hx
    unfold parse_cache_file at h
    rw [if_neg (not_not.mpr h1), if_pos hx] at h
    exact Except.noConfusion h
  have h3 : urlOf d ≠ [] := by
    intro hx
    unfold parse_cache_file at h
    rw [if_neg (not_not.mpr h1), if_neg (not_not.mpr h2), if_pos hx] at h
    exact Except.noConfusion h
  have h4 : 4 ≤ (urlPartsOf d).length := by
    by_contra hx
    unfold parse_cache_file at h
    rw [if_neg (not_not.mpr h1), if_neg (not_not.mpr h2), if_neg h3, if_pos (by omega)] at h
    exact Except.noConfusion h
  cases hc : collectPayload (d.drop (dataStartOf d)) with
  | none =>
    unfold parse_cache_file at h
    rw [if_neg (not_not.mpr h1), if_neg (not_not.mpr h2), if_neg h3, if_neg (by omega), hc] at h
    exact Except.noConfusion h
  | some pl =>
    have hok := parse_ok_intro h1 h2 h3 h4 hc
    rw [h] at hok
    injection hok with hr
    subst hr
    exact ⟨h1, h2, h3, h4, rfl, rfl, rfl⟩

/-- A buffer without the start marker fails with the first format error. -/
theorem parse_badStart {d : List Nat} (h : d.take startSuffix.length ≠ startSuffix) :
    parse_cache_file d = .error .invalidStart := by
  unfold parse_cache_file
  rw [if_pos h]

/-- A buffer whose URL bytes are not valid UTF-8 raises the (uncaught)
decode error. -/
theorem parse_unicode {d : List Nat} (h1 : d.take startSuffix.length = startSuffix)
    (h2 : ¬ validUTF8 (urlOf d) = true) :
    parse_cache_file d = .error .unicodeDecodeError := by
  unfold parse_cache_file
  rw [if_neg (not_not.mpr h1), if_pos h2]

/-- A buffer with an empty URL field fails with the second format error. -/
theorem parse_noUrl {d : List Nat} (h1 : d.take startSuffix.length = startSuffix)
    (h2 : validUTF8 (urlOf d) = true) (h3 : urlOf d = []) :
    parse_cache_file d = .error .invalidNoUrl := by
  unfold parse_cache_file
  rw [if_neg (not_not.mpr h1), if_neg (not_not.mpr h2), if_pos h3]

/-- A URL with fewer than four slash-parts raises the (uncaught) unpacking
error. -/
theorem parse_valueError {d : List Nat} (h1 : d.take startSuffix.length = startSuffix)
    (h2 : validUTF8 (urlOf d) = true) (h3 : urlOf d ≠ [])
    (h4 : (urlPartsOf d).length < 4) :
    parse_cache_file d = .error .valueError := by
  unfold parse_cache_file
  rw [if_neg (not_not.mpr h1), if_neg (not_not.mpr h2), if_neg h3, if_pos h4]

/-- A failed scan yields the third format error. -/
theorem parse_noEnd {d : List Nat} (h1 : d.take startSuffix.length = startSuffix)
    (h2 : validUTF8 (urlOf d) = true) (h3 : urlOf d ≠ [])
    (h4 : 4 ≤ (urlPartsOf d).length)
    (h5 : collectPayload (d.drop (dataStartOf d)) = none) :
    parse_cache_file d = .error .invalidNoEnd := by
  unfold parse_cache_file
  rw [if_neg (not_not.mpr h1), if_neg (not_not.mpr h2), if_neg h3, if_neg (by omega), h5]

/-- C10: a buffer that begins with the start marker and whose little-endian
32-bit length field at offset 12 is at most 4 always fails with the
empty-URL `InvalidCacheFileFormat`, whatever the remaining bytes: the URL
slice `[28, 24+urlLength)` is empty. -/
theorem c10_short_url_fails (d : List Nat) (h1 : d.take startSuffix.length = startSuffix)
    (h2 : urlLengthOf d ≤ 4) : parse_cache_file d = .error .invalidNoUrl := by
  have hurl : urlOf d = [] := by
    unfold urlOf pySlice dataStartOf
    rw [show 24 + urlLengthOf d - 28 = 0 from by omega]
    exact List.take_zero _
  exact parse_noUrl h1 (by rw [hurl]; rfl) hurl

/-- Witness for C10 at a concrete 16-byte buffer with a zero length field. -/
theorem c10_witness :
    dataC10.take startSuffix.length = startSuffix ∧ urlLengthOf dataC10 ≤ 4 ∧
      parse_cache_file dataC10 = .error .invalidNoUrl :=
  ⟨by decide, by decide, c10_short_url_fails dataC10 (by decide) (by decide)⟩

/-- C6: for every buffer that decodes successfully, the data kind is `none`
exactly when the domain (the URL's third slash-delimited segment) lacks the
substring `"discord"` or the URL's fourth slash-delimited segment is
`"api"`; in every other case the kind is that fourth segment. -/
theorem c6_kind_rule (d : List Nat) (r : DecodedRecord)
    (h : parse_cache_file d = .ok r) :
    (r.datakind = none ↔
      (hasSub discordBytes (urlSegment (urlOf d) 2) = false ∨
        urlSegment (urlOf d) 3 = apiBytes)) ∧
    (∀ k, r.datakind = some k → k = urlSegment (urlOf d) 3) := by
  obtain ⟨h1, h2, h3, h4, h5, hdom, hkind⟩ := parse_ok_elim h
  have e2 : (urlPartsOf d).getD 2 [] = urlSegment (urlOf d) 2 :=
    getD_splitSlashAux (urlOf d) 4 2 [] (by omega)
  have e3 : (urlPartsOf d).getD 3 [] = urlSegment (urlOf d) 3 :=
    getD_splitSlashAux (urlOf d) 4 3 [] (by omega)
  rw [e2, e3] at hkind
  by_cases hc : ¬ hasSub discordBytes (urlSegment (urlOf d) 2) = true ∨
      urlSegment (urlOf d) 3 = apiBytes
  · rw [if_pos hc] at hkind
    refine ⟨?_, ?_⟩
    · rw [hkind]
      simp only [true_iff]
      rcases hc with hc1 | hc2
      · exact Or.inl (by simpa using hc1)
      · exact Or.inr hc2
    · intro k hk
      rw [hkind] at hk
      exact absurd hk (by simp)
  · rw [if_neg hc] at hkind
    push_neg at hc
    refine ⟨?_, ?_⟩
    · rw [hkind]
      constructor
      · intro hx
        exact absurd hx (by simp)
      · intro hx
        rcases hx with hx1 | hx2
        · rw [hc.1] at hx1
          cases hx1
        · exact absurd hx2 hc.2
    · intro k hk
      rw [hkind] at hk
      exact (Option.some_inj.mp hk).symm

/-- Witness for C6 at a record with a Discord URL and kind `attachments`. -/
theorem c6_witness :
    parse_cache_file dataD = .ok recD ∧
      ((recD.datakind = none ↔
        (hasSub discordBytes (urlSegment (urlOf dataD) 2) = false ∨
          urlSegment (urlOf dataD) 3 = apiBytes)) ∧
      (∀ k, recD.datakind = some k → k = urlSegment (urlOf dataD) 3)) :=
  ⟨by decide, c6_kind_rule dataD recD (by decide)⟩

/-- C7: every successful decode returns exactly the bytes between the scan
start and the first end-marker window at or after `dataStart`; that window
matches the marker, no earlier window does, and the marker is excluded from
the payload.  In particular a payload region holding the marker more than
once (as in `dataC7`) is truncated at the first occurrence. -/
theorem c7_first_occurrence (d : List Nat) (r : DecodedRecord)
    (h : parse_cache_file d = .ok r) :
    pySlice d (dataStartOf d) (dataStartOf d + r.payload.length) = r.payload ∧
    pySlice d (dataStartOf d + r.payload.length)
        (dataStartOf d + r.payload.length + endSuffix.length) = endSuffix ∧
    ∀ i, dataStartOf d ≤ i → i < dataStartOf d + r.payload.length →
      pySlice d i (i + endSuffix.length) ≠ endSuffix := by
  obtain ⟨h1, h2, h3, h4, h5, hdom, hkind⟩ := parse_ok_elim h
  obtain ⟨c1, c2, c3⟩ := collectPayload_eq_some_spec _ _ h5
  refine ⟨?_, ?_, ?_⟩
  · rw [pySlice,
      show dataStartOf d + r.payload.length - dataStartOf d = r.payload.length from by omega]
    exact c1
  · rw [pySlice, show dataStartOf d + r.payload.length + endSuffix.length -
      (dataStartOf d + r.payload.length) = endSuffix.length from by omega]
    rw [← List.drop_drop]
    exact c2
  · intro i hi1 hi2
    have hj := c3 (i - dataStartOf d) (by omega)
    rw [List.drop_drop, show dataStartOf d + (i - dataStartOf d) = i from by omega] at hj
    rw [pySlice, show i + endSuffix.length - i = endSuffix.length from by omega]
    exact hj

/-- Witness for C7 at a record whose payload region holds the marker twice:
the payload is `[7]`, cut at the first occurrence. -/
theorem c7_witness :
    parse_cache_file dataC7 = .ok recC7 ∧
      (pySlice dataC7 (dataStartOf dataC7) (dataStartOf dataC7 + recC7.payload.length) =
        recC7.payload ∧
      pySlice dataC7 (dataStartOf dataC7 + recC7.payload.length)
        (dataStartOf dataC7 + recC7.payload.length + endSuffix.length) = endSuffix ∧
      ∀ i, dataStartOf dataC7 ≤ i → i < dataStartOf dataC7 + recC7.payload.length →
        pySlice dataC7 i (i + endSuffix.length) ≠ endSuffix) :=
  ⟨by decide, c7_first_occurrence dataC7 recC7 (by decide)⟩

/-- C9: two buffers of equal length that agree everywhere except possibly
on the reserved header bytes (offsets 8–11 and 16–27) decode identically:
the decoder never reads those offsets. -/
theorem c9_reserved_bytes_irrelevant (d1 d2 : List Nat)
    (hlen : d1.length = d2.length)
    (h : ∀ i, i < d1.length → (i < 8 ∨ (12 ≤ i ∧ i < 16) ∨ 28 ≤ i) →
      d1.get? i = d2.get? i) :
    parse_cache_file d1 = parse_cache_file d2 := by
  have h' : ∀ i, (i < 8 ∨ (12 ≤ i ∧ i < 16) ∨ 28 ≤ i) → d1.get? i = d2.get? i := by
    intro i hi
    by_cases hil : i < d1.length
    · exact h i hil hi
    · rw [List.get?_eq_none.mpr (by omega), List.get?_eq_none.mpr (by omega)]
  have h8 : startSuffix.length = 8 := rfl
  have htake : d1.take startSuffix.length = d2.take startSuffix.length :=
    take_eq_of_agree (fun i hi => h' i (Or.inl (by omega)))
  have hlen12 : urlLengthOf d1 = urlLengthOf d2 := by
    unfold urlLengthOf
    rw [pySlice_eq_of_agree (fun i hi1 hi2 => h' i (Or.inr (Or.inl ⟨hi1, hi2⟩)))]
  have hds : dataStartOf d1 = dataStartOf d2 := by unfold dataStartOf; rw [hlen12]
  have hd28 : d1.drop 28 = d2.drop 28 :=
    drop_eq_of_agree (fun i hi => h' i (Or.inr (Or.inr hi)))
  have hurl : urlOf d1 = urlOf d2 := by
    unfold urlOf pySlice
    rw [hd28, hds]
  have hparts : urlPartsOf d1 = urlPartsOf d2 := by unfold urlPartsOf; rw [hurl]
  by_cases q1 : d1.take startSuffix.length = startSuffix
  case neg =>
    have q1b : ¬ d2.take startSuffix.length = startSuffix := by rwa [htake] at q1
    rw [parse_badStart q1, parse_badStart q1b]
  have q1b : d2.take startSuffix.length = startSuffix := by rwa [htake] at q1
  by_cases q2 : validUTF8 (urlOf d1) = true
  case neg =>
    have q2b : ¬ validUTF8 (urlOf d2) = true := by rwa [hurl] at q2
    rw [parse_unicode q1 q2, parse_unicode q1b q2b]
  have q2b : validUTF8 (urlOf d2) = true := by rwa [hurl] at q2
  by_cases q3 : urlOf d1 = []
  case pos =>
    have q3b : urlOf d2 = [] := by rwa [hurl] at q3
    rw [parse_noUrl q1 q2 q3, parse_noUrl q1b q2b q3b]
  have q3b : urlOf d2 ≠ [] := by rwa [hurl] at q3
  by_cases q4 : (urlPartsOf d1).length < 4
  case pos =>
    have q4b : (urlPartsOf d2).length < 4 := by rwa [hparts] at q4
    rw [parse_valueError q1 q2 q3 q4, parse_valueError q1b q2b q3b q4b]
  have q4b : ¬ (urlPartsOf d2).length < 4 := by rwa [hparts] at q4
  have hge : 28 ≤ dataStartOf d1 := by
    by_contra hx
    apply q3
    unfold urlOf pySlice
    rw [show dataStartOf d1 - 28 = 0 from by omega]
    exact List.take_zero _
  have hscan : d1.drop (dataStartOf d1) = d2.drop (dataStartOf d2) := by
    have e1 : d1.drop (dataStartOf d1) = (d1.drop 28).drop (dataStartOf d1 - 28) := by
      rw [List.drop_drop]
      congr 1
      omega
    have e2 : d2.drop (dataStartOf d2) = (d2.drop 28).drop (dataStartOf d2 - 28) := by
      rw [List.drop_drop]
      congr 1
      omega
    rw [e1, e2, hd28, hds]
  cases hc : collectPayload (d1.drop (dataStartOf d1)) with
  | none =>
    rw [parse_noEnd q1 q2 q3 (by omega) hc,
      parse_noEnd q1b q2b q3b (by omega) (by rw [← hscan, hc])]
  | some pl =>
    rw [parse_ok_intro q1 q2 q3 (by omega) hc,
      parse_ok_intro q1b q2b q3b (by omega) (by rw [← hscan, hc]), hparts]

/-- Witness for C9: a record with zeroed reserved bytes and the same record
with nines in the reserved bytes decode to the same result. -/
theorem c9_witness :
    dataC9a.length = dataC9b.length ∧
      (∀ i, i < dataC9a.length → (i < 8 ∨ (12 ≤ i ∧ i < 16) ∨ 28 ≤ i) →
        dataC9a.get? i = dataC9b.get? i) ∧
      parse_cache_file dataC9a = parse_cache_file dataC9b :=
  ⟨by decide, by decide,
    c9_reserved_bytes_irrelevant dataC9a dataC9b (by decide) (by decide)⟩

/-- C1 counterexample: the spec's synthetic buffer ends with the end marker
and nothing after it (`trailing = []`); the scan loop's strict bound
`index + len(END_SUFFIX) < len(data)` never checks the window that ends at
the buffer's last byte, so decoding fails with `InvalidCacheFileFormat`
instead of succeeding — even though `urlBytes` is non-empty with four
slash-delimited segments. -/
theorem c1_counterexample :
    urlBs ≠ [] ∧ 4 ≤ (splitAllAux urlBs []).length ∧
      parse_cache_file (buildRecord urlBs [4, 2] []) = .error .invalidNoEnd := by
  decide

/-- C1 amended: the synthetic buffer decodes to exactly `payloadBytes` and
the URL's third slash-delimited segment provided at least one trailing byte
follows the end marker, the payload contains no end-marker window of its
own, and the URL bytes are valid UTF-8 with at least four slash-delimited
segments. -/
theorem c1_amended_synthetic_decode (u p t : List Nat)
    (h32 : u.length + 4 < 4294967296)
    (hvalid : validUTF8 u = true)
    (hne : u ≠ [])
    (hseg : 4 ≤ (splitAllAux u []).length)
    (hp : ∀ j, j < p.length → ((p ++ endSuffix).drop j).take endSuffix.length ≠ endSuffix)
    (ht : t ≠ []) :
    parse_cache_file (buildRecord u p t) =
      .ok ⟨p, urlSegment u 2,
        if ¬ hasSub discordBytes (urlSegment u 2) = true ∨ urlSegment u 3 = apiBytes
        then none else some (urlSegment u 3)⟩ := by
  have hurl : urlOf (buildRecord u p t) = u := buildRecord_url u p t h32
  have hparts : urlPartsOf (buildRecord u p t) = splitSlashAux 4 u [] := by
    unfold urlPartsOf
    rw [hurl]
  have hlen4 : 4 ≤ (urlPartsOf (buildRecord u p t)).length := by
    rw [hparts, length_splitSlashAux]
    omega
  have e2 : (urlPartsOf (buildRecord u p t)).getD 2 [] = urlSegment u 2 := by
    rw [hparts]
    exact getD_splitSlashAux u 4 2 [] (by omega)
  have e3 : (urlPartsOf (buildRecord u p t)).getD 3 [] = urlSegment u 3 := by
    rw [hparts]
    exact getD_splitSlashAux u 4 3 [] (by omega)
  have hcol : collectPayload
      ((buildRecord u p t).drop (dataStartOf (buildRecord u p t))) = some p := by
    rw [buildRecord_dropDataStart u p t h32]
    exact collectPayload_clean p t ht hp
  have hok := parse_ok_intro (buildRecord_take8 u p t) (by rw [hurl]; exact hvalid)
    (by rw [hurl]; exact hne) hlen4 hcol
  rw [e2, e3] at hok
  exact hok

/-- Witness for the amended C1 at a concrete Discord URL, payload `[3, 4]`
and two trailing bytes. -/
theorem c1_amended_witness :
    (urlD.length + 4 < 4294967296 ∧ validUTF8 urlD = true ∧ urlD ≠ [] ∧
      4 ≤ (splitAllAux urlD []).length ∧
      (∀ j, j < ([3, 4] : List Nat).length →
        (([3, 4] ++ endSuffix).drop j).take endSuffix.length ≠ endSuffix) ∧
      ([0, 0] : List Nat) ≠ []) ∧
    parse_cache_file (buildRecord urlD [3, 4] [0, 0]) =
      .ok ⟨[3, 4], urlSegment urlD 2,
        if ¬ hasSub discordBytes (urlSegment urlD 2) = true ∨ urlSegment urlD 3 = apiBytes
        then none else some (urlSegment urlD 3)⟩ :=
  ⟨⟨by decide, by decide, by decide, by decide, by decide, by decide⟩,
    c1_amended_synthetic_decode urlD [3, 4] [0, 0] (by decide) (by decide) (by decide)
      (by decide) (by decide) (by decide)⟩

/-- C2 counterexample: `dataC2` starts with the marker, has a non-empty URL
field and holds an end-marker occurrence at index 34 ≥ dataStart, so by the
claim it should decode successfully; instead the URL's two slash-parts make
the five-name unpacking raise an (uncaught) `ValueError`. -/
theorem c2_counterexample :
    dataC2.take startSuffix.length = startSuffix ∧ urlOf dataC2 ≠ [] ∧
      dataStartOf dataC2 ≤ 34 ∧ 34 + endSuffix.length ≤ dataC2.length ∧
      pySlice dataC2 34 (34 + endSuffix.length) = endSuffix ∧
      parse_cache_file dataC2 = .error .valueError := by
  decide

/-- C2 amended: decoding fails with `InvalidCacheFileFormat` exactly when
the start marker is absent, or the URL field is empty, or (with a valid
non-empty four-part URL) no end-marker window starts at an index `i ≥
dataStart` with `i + 11 < len(data)` — the scan's strict bound, which
misses an occurrence ending exactly at the buffer's end; and decoding
succeeds exactly when the start marker is present, the URL field is
non-empty, valid UTF-8 and splits into at least four parts, and such a
window exists.  Buffers failing the UTF-8 or four-part requirements raise
non-format errors instead. -/
theorem c2_amended_error_conditions (d : List Nat) :
    ((∃ e, parse_cache_file d = .error e ∧ isInvalidCacheFileFormat e = true) ↔
      (¬ d.take startSuffix.length = startSuffix ∨
        (d.take startSuffix.length = startSuffix ∧ urlOf d = []) ∨
        (d.take startSuffix.length = startSuffix ∧ urlOf d ≠ [] ∧
          validUTF8 (urlOf d) = true ∧ 4 ≤ (urlPartsOf d).length ∧
          ∀ i, dataStartOf d ≤ i → i + endSuffix.length < d.length →
            pySlice d i (i + endSuffix.length) ≠ endSuffix))) ∧
    ((∃ r, parse_cache_file d = .ok r) ↔
      (d.take startSuffix.length = startSuffix ∧ urlOf d ≠ [] ∧
        validUTF8 (urlOf d) = true ∧ 4 ≤ (urlPartsOf d).length ∧
        ∃ i, dataStartOf d ≤ i ∧ i + endSuffix.length < d.length ∧
          pySlice d i (i + endSuffix.length) = endSuffix)) := by
  by_cases q1 : d.take startSuffix.length = startSuffix
  case neg =>
    constructor
    · exact iff_of_true ⟨.invalidStart, parse_badStart q1, rfl⟩ (Or.inl q1)
    · apply iff_of_false
      · rintro ⟨r, hr⟩
        exact Except.noConfusion ((parse_badStart q1).symm.trans hr)
      · rintro ⟨hq, _⟩
        exact q1 hq
  by_cases q2 : validUTF8 (urlOf d) = true
  case neg =>
    have hne : urlOf d ≠ [] := fun hx => q2 (by rw [hx]; rfl)
    constructor
    · apply iff_of_false
      · rintro ⟨e, he, hf⟩
        have he2 := (parse_unicode q1 q2).symm.trans he
        injection he2 with he3
        subst he3
        cases hf
      · rintro (h1 | ⟨_, h2⟩ | ⟨_, _, h3, _⟩)
        · exact h1 q1
        · exact hne h2
        · exact q2 h3
    · apply iff_of_false
      · rintro ⟨r, hr⟩
        exact Except.noConfusion ((parse_unicode q1 q2).symm.trans hr)
      · rintro ⟨_, _, h3, _⟩
        exact q2 h3
  by_cases q3 : urlOf d = []
  case pos =>
    constructor
    · exact iff_of_true ⟨.invalidNoUrl, parse_noUrl q1 q2 q3, rfl⟩
        (Or.inr (Or.inl ⟨q1, q3⟩))
    · apply iff_of_false
      · rintro ⟨r, hr⟩
        exact Except.noConfusion ((parse_noUrl q1 q2 q3).symm.trans hr)
      · rintro ⟨_, h2, _⟩
        exact h2 q3
  by_cases q4 : (urlPartsOf d).length < 4
  case pos =>
    constructor
    · apply iff_of_false
      · rintro ⟨e, he, hf⟩
        have he2 := (parse_valueError q1 q2 q3 q4).symm.trans he
        injection he2 with he3
        subst he3
        cases hf
      · rintro (h1 | ⟨_, h2⟩ | ⟨_, _, _, h4, _⟩)
        · exact h1 q1
        · exact q3 h2
        · omega
    · apply iff_of_false
      · rintro ⟨r, hr⟩
        exact Except.noConfusion ((parse_valueError q1 q2 q3 q4).symm.trans hr)
      · rintro ⟨_, _, _, h4, _⟩
        omega
  cases hc : collectPayload (d.drop (dataStartOf d)) with
  | none =>
    constructor
    · exact iff_of_true ⟨.invalidNoEnd, parse_noEnd q1 q2 q3 (by omega) hc, rfl⟩
        (Or.inr (Or.inr ⟨q1, q3, q2, by omega,
          (collectPayload_drop_eq_none_iff d (dataStartOf d)).mp hc⟩))
    · apply iff_of_false
      · rintro ⟨r, hr⟩
        exact Except.noConfusion ((parse_noEnd q1 q2 q3 (by omega) hc).symm.trans hr)
      · rintro ⟨_, _, _, _, i, hi1, hi2, hi3⟩
        exact (collectPayload_drop_eq_none_iff d (dataStartOf d)).mp hc i hi1 hi2 hi3
  | some pl =>
    have hnall : ¬ (∀ i, dataStartOf d ≤ i → i + endSuffix.length < d.length →
        pySlice d i (i + endSuffix.length) ≠ endSuffix) := by
      intro hall
      have hn := (collectPayload_drop_eq_none_iff d (dataStartOf d)).mpr hall
      rw [hc] at hn
      exact Option.noConfusion hn
    have hex := hnall
    push_neg at hex
    constructor
    · apply iff_of_false
      · rintro ⟨e, he, _⟩
        exact Except.noConfusion ((parse_ok_intro q1 q2 q3 (by omega) hc).symm.trans he).symm
      · rintro (h1 | ⟨_, h2⟩ | ⟨_, _, _, _, hall⟩)
        · exact h1 q1
        · exact q3 h2
        · exact hnall hall
    · refine iff_of_true ⟨_, parse_ok_intro q1 q2 q3 (by omega) hc⟩ ?_
      obtain ⟨i, hi1, hi2, hi3⟩ := hex
      exact ⟨q1, q3, q2, by omega, i, hi1, hi2, hi3⟩

/-- C4 counterexample: a file whose URL has no slash decodes to a
`ValueError` from the five-name unpacking; `create_file_from_cache_file`
catches only `InvalidCacheFileFormat`, so the error escapes the per-file
step (modelled by `Except.error`) instead of yielding the contained
`(None, None)` outcome. -/
theorem c4_counterexample :
    create_file_from_cache_file sniffPng false [] [102, 52] dataC4 =
        .error .valueError ∧
      isInvalidCacheFileFormat .valueError = false := by
  decide

/-- C4 amended: a per-file decode failure is contained — the step returns
the `(None, None)` outcome — exactly when the exception is an
`InvalidCacheFileFormat` (bad start marker, empty URL, missing end
marker); any other decode exception (non-UTF-8 URL bytes, fewer than four
slash-parts) escapes the per-file step unchanged. -/
theorem c4_amended_containment (sniff : List Nat → List Nat) (all_files : Bool)
    (root : List (List Nat)) (file_name : List Nat) (data : List Nat) (e : ParseError)
    (h : parse_cache_file data = .error e) :
    (isInvalidCacheFileFormat e = true →
      create_file_from_cache_file sniff all_files root file_name data =
        .ok ((none, none), none)) ∧
    (isInvalidCacheFileFormat e = false →
      create_file_from_cache_file sniff all_files root file_name data = .error e) := by
  unfold create_file_from_cache_file
  rw [h]
  constructor
  · intro hf
    show (if isInvalidCacheFileFormat e = true then
        (.ok ((none, none), none) :
          Except ParseError ((Option (List Nat) × Option (List Nat)) × Option WriteOp))
      else .error e) = .ok ((none, none), none)
    rw [if_pos hf]
  · intro hf
    show (if isInvalidCacheFileFormat e = true then
        (.ok ((none, none), none) :
          Except ParseError ((Option (List Nat) × Option (List Nat)) × Option WriteOp))
      else .error e) = .error e
    rw [if_neg (by rw [hf]; exact Bool.false_ne_true)]

/-- Witness for the amended C4 at the corrupted-start-marker file: the
format error is contained. -/
theorem c4_amended_witness :
    parse_cache_file dataBad = .error .invalidStart ∧
      ((isInvalidCacheFileFormat .invalidStart = true →
        create_file_from_cache_file sniffPng false [] [102, 51] dataBad =
          .ok ((none, none), none)) ∧
      (isInvalidCacheFileFormat .invalidStart = false →
        create_file_from_cache_file sniffPng false [] [102, 51] dataBad =
          .error .invalidStart)) :=
  ⟨by decide,
    c4_amended_containment sniffPng false [] [102, 51] dataBad .invalidStart (by decide)⟩

/-- C8: a record that decodes successfully and passes the inclusion policy
is written to `root/category/kind/name.subtype` when the kind is set and to
`root/category/"other"/domain/name.subtype` when it is `none`, where
`(category, subtype)` is the sniffed mime type split on the slash. -/
theorem c8_destination_path (sniff : List Nat → List Nat) (all_files : Bool)
    (root : List (List Nat)) (file_name : List Nat) (data : List Nat)
    (r : DecodedRecord) (cat ext : List Nat)
    (hok : parse_cache_file data = .ok r)
    (hmime : splitAllAux (sniff r.payload) [] = [cat, ext])
    (hinc : cat = imageBytes ∨ all_files = true) :
    create_file_from_cache_file sniff all_files root file_name data =
      .ok ((some r.domain, some (sniff r.payload)),
        some ⟨(match r.datakind with
            | none => root ++ [cat, otherBytes, r.domain]
            | some k => root ++ [cat, k]),
          file_name ++ dotByte :: ext, r.payload⟩) := by
  unfold create_file_from_cache_file
  rw [hok]
  simp only [hmime]
  rw [if_neg (by simp)]
  simp only [List.getD_cons_zero, List.getD_cons_succ]
  rw [if_neg ?pol]
  case pol =>
    rintro ⟨hc, ha⟩
    rcases hinc with hh | hh
    · exact hc hh
    · rw [hh] at ha
      cases ha

/-- Witness for C8 at `dataA` (kind `none`): the file lands in
`image/other/u.example.com/f1.png`. -/
theorem c8_witness :
    (parse_cache_file dataA = .ok recA ∧
      splitAllAux (sniffPng recA.payload) [] = [imageBytes, extPng] ∧
      (imageBytes = imageBytes ∨ false = true)) ∧
    create_file_from_cache_file sniffPng false [] [102, 49] dataA =
      .ok ((some recA.domain, some (sniffPng recA.payload)),
        some ⟨(match recA.datakind with
            | none => [] ++ [imageBytes, otherBytes, recA.domain]
            | some k => [] ++ [imageBytes, k]),
          [102, 49] ++ dotByte :: extPng, recA.payload⟩) :=
  ⟨⟨by decide, by decide, Or.inl rfl⟩,
    c8_destination_path sniffPng false [] [102, 49] dataA recA imageBytes extPng
      (by decide) (by decide) (Or.inl rfl)⟩

/-- `dlookup` at a matching head. -/
theorem dlookup_cons_pos (p : Option (List Nat) × Nat) (t : List (Option (List Nat) × Nat))
    (k : Option (List Nat)) (h : p.1 = k) : dlookup (p :: t) k = p.2 := by
  unfold dlookup
  rw [List.find?_cons_of_pos _ (by simpa using h)]

/-- `dlookup` skips a non-matching head. -/
theorem dlookup_cons_neg (p : Option (List Nat) × Nat) (t : List (Option (List Nat) × Nat))
    (k : Option (List Nat)) (h : ¬ p.1 = k) : dlookup (p :: t) k = dlookup t k := by
  unfold dlookup
  rw [List.find?_cons_of_neg _ (by simpa using h)]

/-- `dict_increment` on a present key maps over the entries. -/
theorem dict_increment_present {d : List (Option (List Nat) × Nat)} {key : Option (List Nat)}
    (h : d.any (fun q => decide (q.1 = key)) = true) :
    dict_increment d key = d.map (fun q => if q.1 = key then (q.1, q.2 + 1) else q) := by
  unfold dict_increment
  rw [if_pos h]

/-- `dict_increment` on an absent key appends a fresh count. -/
theorem dict_increment_absent {d : List (Option (List Nat) × Nat)} {key : Option (List Nat)}
    (h : ¬ d.any (fun q => decide (q.1 = key)) = true) :
    dict_increment d key = d ++ [(key, 1)] := by
  unfold dict_increment
  rw [if_neg h]

/-- Incrementing `key` leaves every other key's count unchanged. -/
theorem dlookup_map_ne (key k : Option (List Nat)) (hk : k ≠ key)
    (t : List (Option (List Nat) × Nat)) :
    dlookup (t.map (fun q => if q.1 = key then (q.1, q.2 + 1) else q)) k = dlookup t k := by
  induction t with
  | nil => rfl
  | cons q t3 ih =>
    simp only [List.map_cons]
    by_cases hq : q.1 = k
    · have hqk : ¬ q.1 = key := by rw [hq]; exact hk
      rw [if_neg hqk, dlookup_cons_pos q _ k hq, dlookup_cons_pos q t3 k hq]
    · by_cases hqk : q.1 = key
      · rw [if_pos hqk, dlookup_cons_neg (q.1, q.2 + 1) _ k hq,
          dlookup_cons_neg q t3 k hq]
        exact ih
      · rw [if_neg hqk, dlookup_cons_neg q _ k hq, dlookup_cons_neg q t3 k hq]
        exact ih

/-- The count a key holds after `dict_increment`: the previous count plus
one for the incremented key, unchanged for every other key. -/
theorem dlookup_dict_increment (d : List (Option (List Nat) × Nat))
    (key k : Option (List Nat)) :
    dlookup (dict_increment d key) k = dlookup d k + if k = key then 1 else 0 := by
  induction d with
  | nil =>
    rw [dict_increment_absent (by simp)]
    by_cases hk : k = key
    · subst hk
      rw [List.nil_append, dlookup_cons_pos (k, 1) [] k rfl, if_pos rfl]
      rfl
    · rw [List.nil_append, dlookup_cons_neg (key, 1) [] k (fun hx => hk hx.symm), if_neg hk]
      rfl
  | cons p t ih =>
    by_cases hp : p.1 = key
    · rw [dict_increment_present (by simp [List.any_cons, hp])]
      simp only [List.map_cons]
      rw [if_pos hp]
      by_cases hk : k = key
      · subst hk
        rw [dlookup_cons_pos (p.1, p.2 + 1) _ k hp, dlookup_cons_pos p t k hp, if_pos rfl]
      · have hpk : ¬ p.1 = k := by rw [hp]; exact fun hx => hk hx.symm
        rw [dlookup_cons_neg (p.1, p.2 + 1) _ k hpk, dlookup_cons_neg p t k hpk, if_neg hk,
          dlookup_map_ne key k hk t]
        rfl
    · have hfp : (if p.1 = key then (p.1, p.2 + 1) else p) = p := if_neg hp
      by_cases ht : t.any (fun q => decide (q.1 = key)) = true
      · rw [dict_increment_present (by simp [List.any_cons, ht])]
        simp only [List.map_cons, hfp]
        by_cases hk2 : p.1 = k
        · rw [dlookup_cons_pos p _ k hk2, dlookup_cons_pos p t k hk2]
          have hnk : ¬ k = key := fun hx => hp (by rw [hk2, hx])
          rw [if_neg hnk]
          rfl
        · rw [dlookup_cons_neg p _ k hk2, dlookup_cons_neg p t k hk2,
            ← dict_increment_present ht]
          exact ih
      · rw [dict_increment_absent (by simp [List.any_cons, hp, ht])]
        rw [List.cons_append]
        by_cases hk2 : p.1 = k
        · rw [dlookup_cons_pos p _ k hk2, dlookup_cons_pos p t k hk2]
          have hnk : ¬ k = key := fun hx => hp (by rw [hk2, hx])
          rw [if_neg hnk]
          rfl
        · rw [dlookup_cons_neg p _ k hk2, dlookup_cons_neg p t k hk2,
            ← dict_increment_absent ht]
          exact ih

/-- Folding outcomes into the `types` dictionary counts, per mime key, the
outcomes carrying that key. -/
theorem dlookup_foldl_types (l : List (Option (List Nat) × Option (List Nat))) :
    ∀ (st : RunStats) (k : Option (List Nat)),
      dlookup ((l.foldl agg_step st).types) k =
        dlookup st.types k + l.countP (fun o => decide (o.2 = k)) := by
  induction l with
  | nil =>
    intro st k
    simp [List.countP_nil]
  | cons o t ih =>
    intro st k
    rw [List.foldl_cons, ih, List.countP_cons]
    simp only [agg_step]
    rw [dlookup_dict_increment]
    by_cases hk : k = o.2
    · rw [if_pos hk, if_pos (by simp [hk])]
      omega
    · rw [if_neg hk, if_neg (fun hx => hk (of_decide_eq_true hx).symm)]
      omega

/-- Folding outcomes into the `domains` dictionary counts, per domain key,
the outcomes carrying that key. -/
theorem dlookup_foldl_domains (l : List (Option (List Nat) × Option (List Nat))) :
    ∀ (st : RunStats) (k : Option (List Nat)),
      dlookup ((l.foldl agg_step st).domains) k =
        dlookup st.domains k + l.countP (fun o => decide (o.1 = k)) := by
  induction l with
  | nil =>
    intro st k
    simp [List.countP_nil]
  | cons o t ih =>
    intro st k
    rw [List.foldl_cons, ih, List.countP_cons]
    simp only [agg_step]
    rw [dlookup_dict_increment]
    by_cases hk : k = o.1
    · rw [if_pos hk, if_pos (by simp [hk])]
      omega
    · rw [if_neg hk, if_neg (fun hx => hk (of_decide_eq_true hx).symm)]
      omega

/-- Folding outcomes into `sorted_count` counts the outcomes with a mime
type. -/
theorem sorted_count_foldl (l : List (Option (List Nat) × Option (List Nat))) :
    ∀ st : RunStats, (l.foldl agg_step st).sorted_count =
      st.sorted_count + l.countP (fun o => o.2.isSome) := by
  induction l with
  | nil =>
    intro st
    simp [List.countP_nil]
  | cons o t ih =>
    intro st
    rw [List.foldl_cons, ih, List.countP_cons]
    simp only [agg_step]
    by_cases hs : o.2.isSome
    · rw [if_pos hs]
      omega
    · rw [if_neg hs]
      omega

/-- C5: the final mime and domain count mappings and the decoded counter
are invariant under any permutation of the per-file outcomes: folding the
aggregation step of the result loop over two permutations of the same
outcome multiset yields dictionaries equal as mappings and equal counters. -/
theorem c5_aggregation_commutative (l1 l2 : List (Option (List Nat) × Option (List Nat)))
    (h : l1.Perm l2) :
    (∀ k, dlookup ((l1.foldl agg_step initStats).types) k =
      dlookup ((l2.foldl agg_step initStats).types) k) ∧
    (∀ k, dlookup ((l1.foldl agg_step initStats).domains) k =
      dlookup ((l2.foldl agg_step initStats).domains) k) ∧
    (l1.foldl agg_step initStats).sorted_count =
      (l2.foldl agg_step initStats).sorted_count := by
  refine ⟨fun k => ?_, fun k => ?_, ?_⟩
  · rw [dlookup_foldl_types, dlookup_foldl_types, h.countP_eq]
  · rw [dlookup_foldl_domains, dlookup_foldl_domains, h.countP_eq]
  · rw [sorted_count_foldl, sorted_count_foldl, h.countP_eq]

/-- Witness for C5 on two outcomes consumed in either order. -/
theorem c5_witness :
    (([(some domA, some pngMime), (none, none)] :
        List (Option (List Nat) × Option (List Nat))).Perm
      [(none, none), (some domA, some pngMime)]) ∧
    ((∀ k, dlookup (([(some domA, some pngMime), (none, none)] :
        List (Option (List Nat) × Option (List Nat))).foldl agg_step initStats).types k =
      dlookup (([(none, none), (some domA, some pngMime)] :
        List (Option (List Nat) × Option (List Nat))).foldl agg_step initStats).types k) ∧
    (∀ k, dlookup (([(some domA, some pngMime), (none, none)] :
        List (Option (List Nat) × Option (List Nat))).foldl agg_step initStats).domains k =
      dlookup (([(none, none), (some domA, some pngMime)] :
        List (Option (List Nat) × Option (List Nat))).foldl agg_step initStats).domains k) ∧
    (([(some domA, some pngMime), (none, none)] :
        List (Option (List Nat) × Option (List Nat))).foldl agg_step initStats).sorted_count =
      (([(none, none), (some domA, some pngMime)] :
        List (Option (List Nat) × Option (List Nat))).foldl agg_step initStats).sorted_count) :=
  ⟨List.Perm.swap (none, none) (some domA, some pngMime) [],
    c5_aggregation_commutative _ _ (List.Perm.swap (none, none) (some domA, some pngMime) [])⟩

/-- C3 counterexample: in the three-file scenario with `allFiles = false`,
the decoded counter ends at 1, not 2 — the policy-excluded `text/html`
record returns the same `(None, None)` outcome as the corrupted file and is
not counted — and the failed file does contribute to both mappings, in
their `None` buckets (each ends at 2). -/
theorem c3_counterexample :
    (process_all_files sniffC3 false [] filesC3).map
        (fun res => (res.1.sorted_count, dlookup res.1.types none, dlookup res.1.domains none)) =
      .ok (1, 2, 2) := by
  decide

/-- C3 amended: in the three-file scenario (an `image/png` record, a
`text/html` record, a corrupted-start-marker file) with `allFiles = false`,
exactly one file is written, under `image/other/u.example.com/f1.png`;
`totalEnumerated = 3`; the decoded counter is 1 because a decoded but
policy-excluded file yields the same `(None, None)` outcome as a failure;
the excluded and failed files are each counted in the `None` bucket of both
mappings. -/
theorem c3_amended_scenario :
    filesC3.length = 3 ∧
    process_all_files sniffC3 false [] filesC3 =
      .ok (⟨[(some pngMime, 1), (none, 2)], [(some domA, 1), (none, 2)], 1⟩,
        [⟨[imageBytes, otherBytes, domA], [102, 49, 46, 112, 110, 103], payloadA⟩]) := by
  decide
